import Mathlib

/-!
Verification of the text-reader core (`mian.py`): chapter parsing
(`ChapterParser.parse_chapters`), encoding detection
(`NovelReader.detect_encoding` / `contains_chinese`), search
(`SearchThread.run`, `NovelReader.start_search` / `find_next` /
`find_previous`).

Python strings are modelled as `List Char` (a Python `str` is a sequence of
Unicode code points); byte streams as `List Nat`; the statistical detector
(`chardet`, an external library) and the non-UTF-8 codecs are abstract
oracles passed as parameters.
-/

/-- The set of characters stripped by Python `str.strip()` / matched by the
regex class `\s` on `str` patterns: ASCII whitespace plus the Unicode
whitespace code points recognised by `str.isspace()`. -/
def pyIsSpace (c : Char) : Bool :=
  decide (c = ' ' ∨ c = '\t' ∨ c = '\n' ∨ c = '\r' ∨ c = '\x0b' ∨ c = '\x0c' ∨
    (0x1c ≤ c.toNat ∧ c.toNat ≤ 0x1f) ∨ c.toNat = 0x85 ∨ c.toNat = 0xa0 ∨
    c.toNat = 0x1680 ∨ (0x2000 ≤ c.toNat ∧ c.toNat ≤ 0x200a) ∨
    c.toNat = 0x2028 ∨ c.toNat = 0x2029 ∨ c.toNat = 0x202f ∨
    c.toNat = 0x205f ∨ c.toNat = 0x3000)

/-- Python `s.strip()`: drop leading and trailing whitespace. -/
def pyStrip (s : List Char) : List Char :=
  ((s.dropWhile pyIsSpace).reverse.dropWhile pyIsSpace).reverse

/-- Python `text.split('\n')`; `"".split('\n') = [""]` and a trailing
newline yields a final empty line. -/
def splitLines : List Char → List (List Char)
  | [] => [[]]
  | c :: cs =>
    if c = '\n' then [] :: splitLines cs
    else
      match splitLines cs with
      | [] => [[c]]
      | l :: ls => (c :: l) :: ls

/-- Total character length of a line list under the split convention:
each line contributes its length plus one for the consumed newline. -/
def linesLen (ls : List (List Char)) : Nat :=
  (ls.map (fun l => l.length + 1)).sum

/-- The character class `[零一二三四五六七八九十百千万0-9]` from the
chapter-heading regexes. -/
def cjkNumChar (c : Char) : Bool :=
  c ∈ ['零', '一', '二', '三', '四', '五', '六', '七', '八', '九',
       '十', '百', '千', '万'] || c.isDigit

/-- Anchored match of `[cls]+ stop .*?$` against `s` (no newline occurs in a
split line, so `.*?$` always succeeds): there is a split point `k ≥ 1` with
`s[0..k)` all in the class and `s[k] = stop`. -/
def matchesRun (cls : Char → Bool) (stop : Char) (s : List Char) : Bool :=
  (List.range s.length).any fun k =>
    decide (1 ≤ k) && (s.take k).all cls && s.get? k == some stop

/-- Regex `^第[零一二三四五六七八九十百千万0-9]+章.*?$`. -/
def patZhang (s : List Char) : Bool :=
  match s with
  | '第' :: rest => matchesRun cjkNumChar '章' rest
  | _ => false

/-- Regex `^第[0-9]+章.*?$`. -/
def patDigitZhang (s : List Char) : Bool :=
  match s with
  | '第' :: rest => matchesRun Char.isDigit '章' rest
  | _ => false

/-- Strip a case-insensitive literal pattern from the front of `s`
(Python `re.IGNORECASE`; the pattern here is ASCII, modelled with
`Char.toLower`). Returns the remaining suffix on success. -/
def ciStripPre : List Char → List Char → Option (List Char)
  | [], s => some s
  | _ :: _, [] => none
  | p :: ps, c :: cs => if c.toLower = p.toLower then ciStripPre ps cs else none

/-- Regex `^Chapter\s*[0-9]+.*?$` under `re.IGNORECASE`: the literal
`Chapter`, then some split point `j` with `j` whitespace characters followed
by a digit. -/
def patChapterEn (s : List Char) : Bool :=
  match ciStripPre ("Chapter".data) s with
  | none => false
  | some rest =>
    (List.range rest.length).any fun j =>
      (rest.take j).all pyIsSpace && (rest.get? j).any Char.isDigit

/-- Regex `^章节[0-9]+.*?$`: the literal `章节` followed by at least one
digit. -/
def patZhangJie (s : List Char) : Bool :=
  match s with
  | '章' :: '节' :: rest => (rest.head?).any Char.isDigit
  | _ => false

/-- Regex `^[0-9]+\..*?$`. -/
def patNumDot (s : List Char) : Bool :=
  matchesRun Char.isDigit '.' s

/-- Regex `^第[零一二三四五六七八九十百千万0-9]+节.*?$`. -/
def patJie (s : List Char) : Bool :=
  match s with
  | '第' :: rest => matchesRun cjkNumChar '节' rest
  | _ => false

/-- `re.match(combined_pattern, line, re.IGNORECASE)` where
`combined_pattern` is the `|`-join of the six heading patterns of
`ChapterParser.parse_chapters`. Only the `Chapter` pattern contains cased
letters, so `re.IGNORECASE` affects only that alternative. -/
def matchesHeading (s : List Char) : Bool :=
  patZhang s || patDigitZhang s || patChapterEn s || patZhangJie s ||
    patNumDot s || patJie s

/-- A chapter record `(章节名, 开始位置, 结束位置)` as produced by
`ChapterParser.parse_chapters`. -/
structure Chapter where
  title : List Char
  startOffset : Nat
  endOffset : Nat
deriving DecidableEq, Inhabited

/-- `chapters[-1] = (chapters[-1][0], chapters[-1][1], current_pos)`:
rewrite the end offset of the last chapter (no-op on an empty list, guarded
by `if chapters:` in the source). -/
def closeLast (pos : Nat) : List Chapter → List Chapter
  | [] => []
  | [c] => [{ c with endOffset := pos }]
  | c :: cs => c :: closeLast pos cs

/-- The line-scanning loop of `parse_chapters`: `tlen` is `len(text)`,
`pos` is `current_pos`, and a matching (nonempty, stripped) line closes the
previous chapter at `pos` and opens `(line, pos, tlen)`. -/
def parseLoop (tlen : Nat) : List (List Char) → Nat → List Chapter → List Chapter
  | [], _, chapters => chapters
  | line :: rest, pos, chapters =>
    if !(pyStrip line).isEmpty && matchesHeading (pyStrip line) then
      parseLoop tlen rest (pos + line.length + 1)
        (closeLast pos chapters ++ [⟨line, pos, tlen⟩])
    else
      parseLoop tlen rest (pos + line.length + 1) chapters

/-- `ChapterParser.parse_chapters`: scan the split lines; if no heading was
found, the whole text becomes a single chapter titled `全文`. -/
def parse_chapters (text : List Char) : List Chapter :=
  let chapters := parseLoop text.length (splitLines text) 0 []
  if chapters.isEmpty then [⟨"全文".data, 0, text.length⟩] else chapters

example : parse_chapters ("第一章 开始\n正文内容\n第二章 继续\n更多内容\n".data) =
    [⟨"第一章 开始".data, 0, 12⟩, ⟨"第二章 继续".data, 12, 24⟩] := by decide

example : parse_chapters ("x\n1. a".data) = [⟨"1. a".data, 2, 6⟩] := by decide

example : parse_chapters [] = [⟨"全文".data, 0, 0⟩] := by decide

/-- `NovelReader.contains_chinese`: search the regex `[一-鿿]+` in
the first 1000 characters: does any of those characters lie in the CJK
Unified Ideographs range? -/
def contains_chinese (text : List Char) : Bool :=
  (text.take 1000).any fun c => decide (0x4e00 ≤ c.toNat ∧ c.toNat ≤ 0x9fff)

/-- The candidate list `encodings_to_try` of `detect_encoding`, in source
order. -/
def encodings_to_try : List (List Char) :=
  ["utf-8".data, "gbk".data, "gb2312".data, "big5".data, "utf-16".data,
   "utf-16le".data, "utf-16be".data, "ascii".data]

/-- The fallback loop of `detect_encoding`: `decode e` is the result of
strictly decoding the whole file with codec `e` (`none` models
`UnicodeDecodeError`/`UnicodeError`). A candidate that decodes is returned
if the decoded content contains Chinese, or unconditionally when the
candidate is `utf-8`; otherwise the loop continues. -/
def tryEncodings (decode : List Char → Option (List Char)) :
    List (List Char) → Option (List Char)
  | [] => none
  | enc :: rest =>
    match decode enc with
    | none => tryEncodings decode rest
    | some content =>
      if contains_chinese content then some enc
      else if enc = "utf-8".data then some enc
      else tryEncodings decode rest

/-- `NovelReader.detect_encoding`, inside the outer `try`. `detName` models
`detected.get('encoding', '').lower()` (the lowercased chardet guess, `[]`
when undetected), `conf` models `detected.get('confidence', 0)` (the
source's float threshold `0.8` is the rational `mkRat 8 10`), and `decode`
is the strict-decode oracle for this file's bytes. -/
def detect_encoding (detName : List Char) (conf : ℚ)
    (decode : List Char → Option (List Char)) : List Char :=
  if conf > mkRat 8 10 ∧ detName ≠ [] then
    if detName = "gb2312".data ∨ detName = "gbk".data ∨ detName = "gb18030".data then
      "gbk".data
    else if ("utf-8".data).isPrefixOf detName then "utf-8".data
    else if ("big5".data).isPrefixOf detName then "big5".data
    else detName
  else
    match tryEncodings decode encodings_to_try with
    | some enc => enc
    | none => if detName ≠ [] then detName else "utf-8".data

/-- The whole of `detect_encoding` including the outer `try`/`except`:
`read_ok = false` models any exception raised while reading or probing the
file, answered with the `utf-8` default. -/
def detect_encoding_outer (read_ok : Bool) (detName : List Char) (conf : ℚ)
    (decode : List Char → Option (List Char)) : List Char :=
  if read_ok then detect_encoding detName conf decode else "utf-8".data

/-- Decode one multi-byte UTF-8 sequence with leading byte `b` (≥ 0x80)
and remaining input `bs`: continuation bytes must lie in `80..BF` with the
tightened first-continuation ranges that exclude overlong forms,
surrogates and values above `U+10FFFF`. Returns the decoded character and
the bytes after the sequence, or `none` for a malformed sequence. -/
def utf8MultiHead (b : Nat) (bs : List Nat) : Option (Char × List Nat) :=
  if 0xc2 ≤ b ∧ b ≤ 0xdf then
    match bs with
    | b1 :: bs1 =>
      if 0x80 ≤ b1 ∧ b1 ≤ 0xbf then
        some (Char.ofNat ((b - 0xc0) * 64 + (b1 - 0x80)), bs1)
      else none
    | _ => none
  else if 0xe0 ≤ b ∧ b ≤ 0xef then
    match bs with
    | b1 :: b2 :: bs2 =>
      if ((if b = 0xe0 then 0xa0 else 0x80) ≤ b1 ∧
            b1 ≤ (if b = 0xed then 0x9f else 0xbf)) ∧
          (0x80 ≤ b2 ∧ b2 ≤ 0xbf) then
        some (Char.ofNat ((b - 0xe0) * 4096 + (b1 - 0x80) * 64 + (b2 - 0x80)), bs2)
      else none
    | _ => none
  else if 0xf0 ≤ b ∧ b ≤ 0xf4 then
    match bs with
    | b1 :: b2 :: b3 :: bs3 =>
      if ((if b = 0xf0 then 0x90 else 0x80) ≤ b1 ∧
            b1 ≤ (if b = 0xf4 then 0x8f else 0xbf)) ∧
          (0x80 ≤ b2 ∧ b2 ≤ 0xbf) ∧ (0x80 ≤ b3 ∧ b3 ≤ 0xbf) then
        some (Char.ofNat ((b - 0xf0) * 262144 + (b1 - 0x80) * 4096 +
          (b2 - 0x80) * 64 + (b3 - 0x80)), bs3)
      else none
    | _ => none
  else none

/-- Strict UTF-8 decoding of a byte list (the behaviour of
`open(file, encoding='utf-8', errors='strict')`). `fuel` only bounds the
recursion; `utf8Decode` supplies `bytes.length`, which never runs out
because every step consumes at least one byte. -/
def utf8DecodeAux : Nat → List Nat → Option (List Char)
  | _, [] => some []
  | 0, _ :: _ => none
  | fuel + 1, b :: bs =>
    if b < 0x80 then
      (utf8DecodeAux fuel bs).map (Char.ofNat b :: ·)
    else
      (utf8MultiHead b bs).bind fun cr =>
        (utf8DecodeAux fuel cr.2).map (cr.1 :: ·)

/-- Strict UTF-8 decoding of a byte list. -/
def utf8Decode (bytes : List Nat) : Option (List Char) :=
  utf8DecodeAux bytes.length bytes

example : utf8Decode [0x68, 0x69] = some ['h', 'i'] := by decide

example : utf8Decode [0xe7, 0xac, 0xac] = some ['第'] := by decide

example : utf8Decode [0xff] = none := by decide

/-- Character comparison used by the literal search: exact equality when
case-sensitive, otherwise the case-insensitive comparison of
`re.IGNORECASE` (modelled with `Char.toLower`). -/
def charEqCI (case_sensitive : Bool) (a b : Char) : Bool :=
  if case_sensitive then a == b else a.toLower == b.toLower

/-- Does the keyword match at the head of this text suffix? (The keyword is
`re.escape`d in the source, so matching is literal.) -/
def matchAt (case_sensitive : Bool) : List Char → List Char → Bool
  | _, [] => true
  | [], _ :: _ => false
  | t :: ts, k :: ks => charEqCI case_sensitive t k && matchAt case_sensitive ts ks

/-- The left-to-right non-overlapping scan of `re.finditer` for a literal
(escaped) nonempty keyword: on a match at index `i`, resume after the
matched span; otherwise advance one character. `fuel` only bounds the
recursion; `findOffsets` supplies `text.length`, which never runs out
because every step consumes at least one character. -/
def findOffsetsAux (case_sensitive : Bool) (kw : List Char) :
    Nat → List Char → Nat → List Nat
  | _, [], _ => []
  | 0, _ :: _, _ => []
  | fuel + 1, t :: ts, i =>
    if matchAt case_sensitive (t :: ts) kw then
      i :: findOffsetsAux case_sensitive kw fuel (ts.drop (kw.length - 1)) (i + kw.length)
    else
      findOffsetsAux case_sensitive kw fuel ts (i + 1)

/-- All match start offsets of `re.finditer(re.escape(kw), text, flags)`
for a nonempty keyword, in ascending order. -/
def findOffsets (case_sensitive : Bool) (kw text : List Char) : List Nat :=
  findOffsetsAux case_sensitive kw text.length text 0

/-- `SearchThread.run`: empty keyword yields no results; otherwise each
match start is paired with its context window
`text[max(0, start-50) : min(len(text), start+len(keyword)+50)]`
(`Nat` subtraction supplies the `max(0, ·)`). -/
def SearchThread_run (text keyword : List Char) (case_sensitive : Bool) :
    List (Nat × List Char) :=
  if keyword = [] then []
  else
    (findOffsets case_sensitive keyword text).map fun start =>
      let context_start := start - 50
      let context_end := min text.length (start + keyword.length + 50)
      (start, (text.drop context_start).take (context_end - context_start))

example : (SearchThread_run ("abcABCabc".data) ("abc".data) false).map Prod.fst =
    [0, 3, 6] := by decide

example : (SearchThread_run ("abcABCabc".data) ("abc".data) true).map Prod.fst =
    [0, 6] := by decide

/-- The search-related mutable fields of `NovelReader`:
`self.search_results` (match start offsets) and
`self.current_search_index` (a Python `int`, `-1` when no result is
selected). -/
structure SearchState where
  search_results : List Nat
  current_search_index : Int
deriving DecidableEq, Inhabited

/-- `NovelReader.start_search`: strip the search-input text; an empty
result returns at once, leaving the state untouched. Otherwise the results
are recomputed over the displayed chapter text and the cursor starts at 0
when anything was found, staying at the cleared value `-1` otherwise. -/
def start_search (st : SearchState) (inputText : List Char)
    (case_sensitive : Bool) (current_text : List Char) : SearchState :=
  let keyword := pyStrip inputText
  if keyword = [] then st
  else
    let results := findOffsets case_sensitive keyword current_text
    if results ≠ [] then ⟨results, 0⟩ else ⟨results, -1⟩

/-- `NovelReader.find_next`: advance the cursor unless the result list is
empty or the cursor is already on the last result. -/
def find_next (st : SearchState) : SearchState :=
  if st.search_results ≠ [] ∧
      st.current_search_index < (st.search_results.length : Int) - 1 then
    { st with current_search_index := st.current_search_index + 1 }
  else st

/-- `NovelReader.find_previous`: move the cursor back unless the result
list is empty or the cursor is already at 0. -/
def find_previous (st : SearchState) : SearchState :=
  if st.search_results ≠ [] ∧ st.current_search_index > 0 then
    { st with current_search_index := st.current_search_index - 1 }
  else st

/-- A user navigation action on the search cursor. -/
inductive NavOp where
  | next
  | prev
deriving DecidableEq

/-- Apply one navigation action. -/
def navStep (st : SearchState) (op : NavOp) : SearchState :=
  match op with
  | .next => find_next st
  | .prev => find_previous st

/-- Apply a sequence of navigation actions. -/
def navigate (st : SearchState) (ops : List NavOp) : SearchState :=
  ops.foldl navStep st

example : detect_encoding ("ascii".data) 1
    (fun e => if e = "utf-8".data then utf8Decode [0x68, 0x69] else none) =
    "ascii".data := by decide

example : detect_encoding [] 0
    (fun e => if e = "utf-8".data then some ("hi".data) else none) =
    "utf-8".data := by decide

/-- Structural invariant of the chapter accumulator during the scan:
consecutive chapters touch (`endOffset` equals the next `startOffset`) with
strictly increasing starts, and the final chapter starts before `pos` and
carries the provisional end `tlen`. -/
def chainOk (tlen pos : Nat) : List Chapter → Prop
  | [] => True
  | [c] => c.startOffset < pos ∧ c.endOffset = tlen
  | c :: c2 :: rest =>
    c.endOffset = c2.startOffset ∧ c.startOffset < c2.startOffset ∧
      chainOk tlen pos (c2 :: rest)

theorem chainOk_mono {tlen p q : Nat} (hpq : p ≤ q) :
    ∀ chs : List Chapter, chainOk tlen p chs → chainOk tlen q chs
  | [], h => h
  | [_], h => ⟨Nat.lt_of_lt_of_le h.1 hpq, h.2⟩
  | _ :: c2 :: rest, h => ⟨h.1, h.2.1, chainOk_mono hpq (c2 :: rest) h.2.2⟩

theorem chainOk_closeAppend {tlen pos d : Nat} (t : List Char) (hd : 0 < d) :
    ∀ chs : List Chapter, chainOk tlen pos chs →
      chainOk tlen (pos + d) (closeLast pos chs ++ [⟨t, pos, tlen⟩])
  | [], _ => ⟨Nat.lt_add_of_pos_right hd, rfl⟩
  | [_], h => ⟨rfl, h.1, Nat.lt_add_of_pos_right hd, rfl⟩
  | [_, _], h => ⟨h.1, h.2.1, rfl, h.2.2.1, Nat.lt_add_of_pos_right hd, rfl⟩
  | _ :: c2 :: c3 :: rest, h =>
    ⟨h.1, h.2.1, chainOk_closeAppend t hd (c2 :: c3 :: rest) h.2.2⟩

theorem parseLoop_chainOk (tlen : Nat) :
    ∀ (ls : List (List Char)) (pos : Nat) (chs : List Chapter),
      chainOk tlen pos chs →
      chainOk tlen (pos + linesLen ls) (parseLoop tlen ls pos chs) := by
  intro ls
  induction ls with
  | nil =>
    intro pos chs h
    simpa [parseLoop, linesLen] using h
  | cons line rest ih =>
    intro pos chs h
    have hlen : pos + linesLen (line :: rest) = pos + line.length + 1 + linesLen rest := by
      simp only [linesLen, List.map_cons, List.sum_cons]
      omega
    rw [hlen, parseLoop]
    by_cases hm : (!(pyStrip line).isEmpty && matchesHeading (pyStrip line)) = true
    · rw [if_pos hm]
      exact ih (pos + line.length + 1) _
        (chainOk_closeAppend line (Nat.succ_pos _) chs h)
    · rw [if_neg hm]
      exact ih (pos + line.length + 1) chs
        (chainOk_mono (by omega) chs h)

theorem splitLines_ne_nil : ∀ text : List Char, splitLines text ≠ []
  | [] => by simp [splitLines]
  | c :: cs => by
    rw [splitLines]
    by_cases h : c = '\n'
    · simp [h]
    · rw [if_neg h]
      cases hs : splitLines cs with
      | nil => simp
      | cons l ls => simp

theorem linesLen_splitLines : ∀ text : List Char,
    linesLen (splitLines text) = text.length + 1
  | [] => rfl
  | c :: cs => by
    rw [splitLines]
    by_cases h : c = '\n'
    · rw [if_pos h]
      have ih := linesLen_splitLines cs
      simp only [linesLen, List.map_cons, List.sum_cons, List.length_nil,
        List.length_cons] at ih ⊢
      omega
    · rw [if_neg h]
      cases hs : splitLines cs with
      | nil => exact absurd hs (splitLines_ne_nil cs)
      | cons l ls =>
        have ih := linesLen_splitLines cs
        rw [hs] at ih
        simp only [linesLen, List.map_cons, List.sum_cons, List.length_cons] at ih ⊢
        omega

theorem parse_chapters_chainOk (text : List Char) :
    chainOk text.length (text.length + 1) (parse_chapters text) ∧
      parse_chapters text ≠ [] := by
  have h := parseLoop_chainOk text.length (splitLines text) 0 [] trivial
  rw [linesLen_splitLines, Nat.zero_add] at h
  unfold parse_chapters
  by_cases he : (parseLoop text.length (splitLines text) 0 []).isEmpty
  · simp only [he, if_true]
    exact ⟨⟨Nat.succ_pos _, rfl⟩, by simp⟩
  · simp only [he, if_false]
    exact ⟨h, by simpa using he⟩

theorem chainOk_sorted {tlen p : Nat} :
    ∀ chs : List Chapter, chainOk tlen p chs →
      List.Chain' (fun a b => a.startOffset ≤ b.startOffset) chs
  | [], _ => List.chain'_nil
  | [c], _ => by simp
  | _ :: c2 :: rest, h => by
    rw [List.chain'_cons]
    exact ⟨Nat.le_of_lt h.2.1, chainOk_sorted (c2 :: rest) h.2.2⟩

theorem chainOk_contig {tlen p : Nat} :
    ∀ chs : List Chapter, chainOk tlen p chs →
      List.Chain' (fun a b => a.endOffset = b.startOffset) chs
  | [], _ => List.chain'_nil
  | [c], _ => by simp
  | _ :: c2 :: rest, h => by
    rw [List.chain'_cons]
    exact ⟨h.1, chainOk_contig (c2 :: rest) h.2.2⟩

theorem chainOk_bounds {tlen : Nat} :
    ∀ chs : List Chapter, chainOk tlen (tlen + 1) chs →
      ∀ c ∈ chs, c.startOffset ≤ c.endOffset ∧ c.endOffset ≤ tlen
  | [], _, c, hc => absurd hc (List.not_mem_nil c)
  | [c0], h, c, hc => by
    rcases List.mem_singleton.mp hc with rfl
    have h1 := h.1
    have h2 := h.2
    omega
  | c0 :: c2 :: rest, h, c, hc => by
    rcases List.mem_cons.mp hc with rfl | hc2
    · have hb := chainOk_bounds (c2 :: rest) h.2.2 c2 (List.mem_cons_self c2 rest)
      have h1 := h.1
      have h2 := h.2.1
      omega
    · exact chainOk_bounds (c2 :: rest) h.2.2 c hc2

theorem chainOk_lastEnd {tlen p : Nat} :
    ∀ (chs : List Chapter) (d : Chapter), chainOk tlen p chs → chs ≠ [] →
      (chs.getLastD d).endOffset = tlen
  | [], _, _, hne => absurd rfl hne
  | [_], _, h, _ => h.2
  | c :: c2 :: rest, _, h, _ =>
    chainOk_lastEnd (c2 :: rest) c h.2.2 (by simp)

theorem chainOk_head_le {tlen p : Nat} :
    ∀ chs : List Chapter, chainOk tlen p chs →
      ∀ c ∈ chs, chs.headI.startOffset ≤ c.startOffset
  | [], _, c, hc => absurd hc (List.not_mem_nil c)
  | [c0], _, c, hc => by
    rcases List.mem_singleton.mp hc with rfl
    exact Nat.le_refl _
  | c0 :: c2 :: rest, h, c, hc => by
    rcases List.mem_cons.mp hc with rfl | hc2
    · exact Nat.le_refl _
    · have hle := chainOk_head_le (c2 :: rest) h.2.2 c hc2
      have h2 := h.2.1
      simp only [List.headI] at hle ⊢
      omega

theorem chainOk_disjoint {tlen p : Nat} :
    ∀ chs : List Chapter, chainOk tlen p chs →
      List.Pairwise (fun a b => a.endOffset ≤ b.startOffset) chs
  | [], _ => List.Pairwise.nil
  | [c], _ => by simp
  | c :: c2 :: rest, h => by
    rw [List.pairwise_cons]
    refine ⟨?_, chainOk_disjoint (c2 :: rest) h.2.2⟩
    intro b hb
    have hble := chainOk_head_le (c2 :: rest) h.2.2 b hb
    have h1 := h.1
    simp only [List.headI] at hble
    omega

theorem chainOk_cover {tlen : Nat} :
    ∀ chs : List Chapter, chainOk tlen (tlen + 1) chs → chs ≠ [] →
      ∀ i : Nat, chs.headI.startOffset ≤ i → i < tlen →
        ∃ c ∈ chs, c.startOffset ≤ i ∧ i < c.endOffset
  | [], _, hne, _, _, _ => absurd rfl hne
  | [c], h, _, i, h1, h2 =>
    ⟨c, List.mem_singleton.mpr rfl, h1, by rw [h.2]; exact h2⟩
  | c :: c2 :: rest, h, _, i, h1, h2 => by
    by_cases hi : i < c.endOffset
    · exact ⟨c, List.mem_cons_self c _, h1, hi⟩
    · have h2start : c2.startOffset ≤ i := by
        have := h.1
        omega
      obtain ⟨c3, hc3, hcc⟩ := chainOk_cover (c2 :: rest) h.2.2 (by simp) i
        (by simpa using h2start) h2
      exact ⟨c3, List.mem_cons_of_mem c hc3, hcc⟩

theorem parseLoop_nomatch (tlen : Nat) :
    ∀ (ls : List (List Char)) (pos : Nat) (chs : List Chapter),
      (∀ l ∈ ls, matchesHeading (pyStrip l) = false) →
      parseLoop tlen ls pos chs = chs
  | [], _, _, _ => rfl
  | line :: rest, pos, chs, h => by
    rw [parseLoop]
    have hl : matchesHeading (pyStrip line) = false := h line (List.mem_cons_self _ _)
    simp only [hl, Bool.and_false, Bool.false_eq_true, if_false]
    exact parseLoop_nomatch tlen rest _ chs fun l hl2 => h l (List.mem_cons_of_mem _ hl2)

/-- C1 (amended): for every document, the chapter ranges returned by
`parse_chapters` are sorted by `startOffset`, pairwise disjoint, and cover
exactly the positions of `[s0, len(D))`, each exactly once, where `s0` is
the first returned chapter's `startOffset` — the offset of the first
matching heading line (0 when no line matches); untitled text preceding
the first heading line is not covered by any chapter. -/
theorem C1_partition (text : List Char) :
    parse_chapters text ≠ [] ∧
    List.Chain' (fun a b => a.startOffset ≤ b.startOffset) (parse_chapters text) ∧
    List.Pairwise (fun a b => a.endOffset ≤ b.startOffset) (parse_chapters text) ∧
    ∀ i : Nat,
      ((parse_chapters text).headI.startOffset ≤ i ∧ i < text.length) ↔
        ∃ c ∈ parse_chapters text, c.startOffset ≤ i ∧ i < c.endOffset := by
  obtain ⟨hchain, hne⟩ := parse_chapters_chainOk text
  refine ⟨hne, chainOk_sorted _ hchain, chainOk_disjoint _ hchain, ?_⟩
  intro i
  constructor
  · rintro ⟨h1, h2⟩
    exact chainOk_cover _ hchain hne i h1 h2
  · rintro ⟨c, hc, hci1, hci2⟩
    have hb := chainOk_bounds _ hchain c hc
    have hh := chainOk_head_le _ hchain c hc
    omega

/-- C1 (counterexample): the claimed coverage of `[0, len(D))` fails when
untitled text precedes the first heading line. In `"x\n1. a"` the single
heading `1. a` starts at offset 2, so position 0 lies in `[0, 6)` but in no
chapter's range, and the first chapter does not start at offset 0. -/
theorem C1_counterexample :
    ("x\n1. a".data).length = 6 ∧
    parse_chapters ("x\n1. a".data) = [⟨"1. a".data, 2, 6⟩] ∧
    ¬(∃ c ∈ parse_chapters ("x\n1. a".data),
        c.startOffset ≤ 0 ∧ 0 < c.endOffset) := by decide

/-- C4: on `"第一章 开始\n正文内容\n第二章 继续\n更多内容\n"` the parser
returns exactly two chapters with the expected titles, the first starting
at 0, the second starting at 12 — the character length of
`"第一章 开始\n正文内容\n"` — and the first chapter's end equals the second
chapter's start. -/
theorem C4_example :
    parse_chapters ("第一章 开始\n正文内容\n第二章 继续\n更多内容\n".data) =
      [⟨"第一章 开始".data, 0, 12⟩, ⟨"第二章 继续".data, 12, 24⟩] ∧
    ("第一章 开始\n正文内容\n".data).length = 12 := by decide

/-- C5: every chapter returned by `parse_chapters` satisfies
`0 ≤ startOffset ≤ endOffset ≤ len(D)` (offsets in characters), the
sequence is ordered by `startOffset` ascending, each chapter's `endOffset`
equals the next chapter's `startOffset`, and the last chapter's `endOffset`
equals `len(D)`. -/
theorem C5_invariants (text : List Char) :
    (∀ c ∈ parse_chapters text,
      c.startOffset ≤ c.endOffset ∧ c.endOffset ≤ text.length) ∧
    List.Chain' (fun a b => a.startOffset ≤ b.startOffset) (parse_chapters text) ∧
    List.Chain' (fun a b => a.endOffset = b.startOffset) (parse_chapters text) ∧
    ((parse_chapters text).getLastD default).endOffset = text.length := by
  obtain ⟨hchain, hne⟩ := parse_chapters_chainOk text
  exact ⟨chainOk_bounds _ hchain, chainOk_sorted _ hchain,
    chainOk_contig _ hchain, chainOk_lastEnd _ default hchain hne⟩

/-- C6: if no trimmed line of the document matches any of the six heading
patterns, `parse_chapters` raises no error and returns exactly one chapter,
titled with the generic whole-document label `全文`, spanning
`[0, len(D))`; in particular the empty document yields the single
zero-length chapter spanning `[0, 0)`. -/
theorem C6_nomatch (text : List Char)
    (h : ∀ l ∈ splitLines text, matchesHeading (pyStrip l) = false) :
    parse_chapters text = [⟨"全文".data, 0, text.length⟩] ∧
    parse_chapters [] = [⟨"全文".data, 0, 0⟩] := by
  refine ⟨?_, by decide⟩
  simp only [parse_chapters]
  rw [parseLoop_nomatch text.length (splitLines text) 0 [] h]
  simp

/-- C6 witness: the hypothesis holds for the concrete heading-free document
`"hello world\nfoo"`, and the theorem applies to it. -/
theorem C6_witness :
    (∀ l ∈ splitLines ("hello world\nfoo".data),
        matchesHeading (pyStrip l) = false) ∧
    (parse_chapters ("hello world\nfoo".data) =
        [⟨"全文".data, 0, ("hello world\nfoo".data).length⟩] ∧
      parse_chapters [] = [⟨"全文".data, 0, 0⟩]) :=
  ⟨by decide, C6_nomatch ("hello world\nfoo".data) (by decide)⟩

theorem tryEncodings_utf8_some (decode : List Char → Option (List Char))
    (content : List Char) (h : decode ("utf-8".data) = some content) :
    tryEncodings decode encodings_to_try = some ("utf-8".data) := by
  rw [encodings_to_try, tryEncodings, h]
  dsimp only
  by_cases hc : contains_chinese content
  · rw [if_pos hc]
  · rw [if_neg hc, if_pos rfl]

theorem tryEncodings_none (decode : List Char → Option (List Char)) :
    ∀ encs : List (List Char), (∀ e ∈ encs, decode e = none) →
      tryEncodings decode encs = none
  | [], _ => rfl
  | enc :: rest, h => by
    rw [tryEncodings, h enc (List.mem_cons_self _ _)]
    exact tryEncodings_none decode rest fun e he => h e (List.mem_cons_of_mem _ he)

theorem utf8DecodeAux_ascii :
    ∀ (fuel : Nat) (bs : List Nat), bs.length ≤ fuel →
      (∀ b ∈ bs, b < 128) → (utf8DecodeAux fuel bs).isSome
  | _, [], _, _ => by simp [utf8DecodeAux]
  | 0, b :: bs, hlen, _ => absurd hlen (by simp)
  | fuel + 1, b :: bs, hlen, h => by
    rw [utf8DecodeAux, if_pos (h b (List.mem_cons_self _ _))]
    rw [Option.isSome_map']
    exact utf8DecodeAux_ascii fuel bs (by simpa using hlen)
      fun b2 hb2 => h b2 (List.mem_cons_of_mem _ hb2)

theorem utf8Decode_ascii (bytes : List Nat) (h : ∀ b ∈ bytes, b < 128) :
    (utf8Decode bytes).isSome :=
  utf8DecodeAux_ascii bytes.length bytes (Nat.le_refl _) h

/-- C2: in the candidate-list fallback path of `detect_encoding` (taken
when the chardet confidence is not above 0.8 or its name is empty), a
successful strict `utf-8` decode of the whole input makes the function
return `utf-8` regardless of whether the decoded text contains CJK
characters (the candidate order is the fixed `encodings_to_try` list, with
`utf-8` first); hence any other return value is possible only when strict
`utf-8` decoding fails. -/
theorem C2_fallback_utf8 (detName : List Char) (conf : ℚ)
    (decode : List Char → Option (List Char))
    (hfb : ¬(conf > mkRat 8 10 ∧ detName ≠ [])) :
    ((decode ("utf-8".data)).isSome →
      detect_encoding detName conf decode = "utf-8".data) ∧
    (detect_encoding detName conf decode ≠ "utf-8".data →
      decode ("utf-8".data) = none) := by
  have h1 : (decode ("utf-8".data)).isSome →
      detect_encoding detName conf decode = "utf-8".data := by
    intro hs
    obtain ⟨content, hc⟩ := Option.isSome_iff_exists.mp hs
    unfold detect_encoding
    rw [if_neg hfb, tryEncodings_utf8_some decode content hc]
  refine ⟨h1, ?_⟩
  intro hne
  cases hd : decode ("utf-8".data) with
  | none => rfl
  | some content => exact absurd (h1 (by rw [hd]; rfl)) hne

/-- A concrete decode oracle for witnesses: only `utf-8` decodes, giving a
text with CJK content. -/
def utf8OnlyOracle : List Char → Option (List Char) :=
  fun e => if e = "utf-8".data then some ("你好".data) else none

/-- C2 witness: with low confidence and an oracle under which `utf-8`
decodes, the fallback returns `utf-8`. -/
theorem C2_witness :
    (¬((0 : ℚ) > mkRat 8 10 ∧ ([] : List Char) ≠ [])) ∧
    (((utf8OnlyOracle ("utf-8".data)).isSome →
      detect_encoding [] 0 utf8OnlyOracle = "utf-8".data) ∧
    (detect_encoding [] 0 utf8OnlyOracle ≠ "utf-8".data →
      utf8OnlyOracle ("utf-8".data) = none)) :=
  ⟨by decide, C2_fallback_utf8 [] 0 utf8OnlyOracle (by decide)⟩

/-- C3 (amended): for a file whose bytes are all ASCII (hence valid
UTF-8), `detect_encoding` returns `utf-8` whenever the candidate-list
fallback branch is taken (confidence not above 0.8 or empty detector
name) or the detector's lowercased name starts with `utf-8`; in the
high-confidence branch with any name outside the gb family, `utf-8*` and
`big5*` (such as `ascii`), the raw detected name is returned instead (see
the counterexample). -/
theorem C3_ascii_utf8 (bytes : List Nat) (detName : List Char) (conf : ℚ)
    (decode : List Char → Option (List Char))
    (hascii : ∀ b ∈ bytes, b < 128)
    (hdec : decode ("utf-8".data) = utf8Decode bytes)
    (hbranch : ¬(conf > mkRat 8 10 ∧ detName ≠ []) ∨
      ("utf-8".data).isPrefixOf detName = true) :
    detect_encoding detName conf decode = "utf-8".data := by
  have hs : (decode ("utf-8".data)).isSome := by
    rw [hdec]; exact utf8Decode_ascii bytes hascii
  obtain ⟨content, hc⟩ := Option.isSome_iff_exists.mp hs
  rcases hbranch with hfb | hpre
  · unfold detect_encoding
    rw [if_neg hfb, tryEncodings_utf8_some decode content hc]
  · unfold detect_encoding
    by_cases hhi : conf > mkRat 8 10 ∧ detName ≠ []
    · rw [if_pos hhi]
      have hgb : ¬(detName = "gb2312".data ∨ detName = "gbk".data ∨
          detName = "gb18030".data) := by
        rintro (rfl | rfl | rfl) <;> exact absurd hpre (by decide)
      rw [if_neg hgb, if_pos hpre]
    · rw [if_neg hhi, tryEncodings_utf8_some decode content hc]

/-- A concrete decode oracle for the C3 witness and counterexample: only
`utf-8` decodes, by real strict UTF-8 decoding of the ASCII bytes
`[104, 105]` (`"hi"`). -/
def asciiFileOracle : List Char → Option (List Char) :=
  fun e => if e = "utf-8".data then utf8Decode [104, 105] else none

/-- C3 witness: the amended theorem applied to the ASCII file `"hi"` with
an undetected chardet result. -/
theorem C3_witness :
    (∀ b ∈ [104, 105], b < 128) ∧
    asciiFileOracle ("utf-8".data) = utf8Decode [104, 105] ∧
    (¬((0 : ℚ) > mkRat 8 10 ∧ ([] : List Char) ≠ []) ∨
      ("utf-8".data).isPrefixOf ([] : List Char) = true) ∧
    detect_encoding [] 0 asciiFileOracle = "utf-8".data :=
  ⟨by decide, by decide, Or.inl (by decide),
    C3_ascii_utf8 [104, 105] [] 0 asciiFileOracle (by decide) (by decide)
      (Or.inl (by decide))⟩

/-- C3 counterexample: for the ASCII file `"hi"`, if the statistical
detector reports the name `ascii` with confidence 1 (chardet's actual
behaviour on pure-ASCII input), the high-confidence branch returns the raw
name `ascii`, not `utf-8`, even though the bytes are ASCII-only valid
UTF-8 and strictly decode as such. -/
theorem C3_counterexample :
    (∀ b ∈ [104, 105], b < 128) ∧
    utf8Decode [104, 105] = some ['h', 'i'] ∧
    asciiFileOracle ("utf-8".data) = utf8Decode [104, 105] ∧
    detect_encoding ("ascii".data) 1 asciiFileOracle = "ascii".data ∧
    "ascii".data ≠ "utf-8".data := by decide

/-- C9: `detect_encoding` is total (a Lean function); when the fallback
branch is taken and every candidate fails to decode strictly it returns
the detector's raw lowercased name when nonempty and `utf-8` otherwise;
and any error in the surrounding `try` (modelled by `read_ok = false`)
also yields `utf-8`. -/
theorem C9_total_fallback (detName : List Char) (conf : ℚ)
    (decode : List Char → Option (List Char))
    (hfb : ¬(conf > mkRat 8 10 ∧ detName ≠ []))
    (hall : ∀ e ∈ encodings_to_try, decode e = none) :
    detect_encoding_outer true detName conf decode =
      (if detName ≠ [] then detName else "utf-8".data) ∧
    detect_encoding_outer false detName conf decode = "utf-8".data := by
  refine ⟨?_, rfl⟩
  show detect_encoding detName conf decode = _
  unfold detect_encoding
  rw [if_neg hfb, tryEncodings_none decode _ hall]

/-- A decode oracle under which every codec fails. -/
def noneOracle : List Char → Option (List Char) := fun _ => none

/-- C9 witness: low confidence, nonempty detector name `gbk`, all decodes
failing: the raw name is returned, and the error path returns `utf-8`. -/
theorem C9_witness :
    (¬((0 : ℚ) > mkRat 8 10 ∧ ("gbk".data : List Char) ≠ [])) ∧
    (∀ e ∈ encodings_to_try, noneOracle e = none) ∧
    (detect_encoding_outer true ("gbk".data) 0 noneOracle =
      (if ("gbk".data : List Char) ≠ [] then "gbk".data else "utf-8".data) ∧
    detect_encoding_outer false ("gbk".data) 0 noneOracle = "utf-8".data) :=
  ⟨by decide, by decide,
    C9_total_fallback ("gbk".data) 0 noneOracle (by decide) (by decide)⟩

/-- C7: search is literal, left-to-right, non-overlapping, with matches in
ascending offset order: on `"abcABCabc"` with keyword `"abc"`, the
case-insensitive search matches exactly at offsets 0, 3, 6 in that order,
and the case-sensitive search exactly at 0 and 6. -/
theorem C7_search_offsets :
    (SearchThread_run ("abcABCabc".data) ("abc".data) false).map Prod.fst =
      [0, 3, 6] ∧
    (SearchThread_run ("abcABCabc".data) ("abc".data) true).map Prod.fst =
      [0, 6] := by decide

theorem find_next_results (st : SearchState) :
    (find_next st).search_results = st.search_results := by
  unfold find_next
  split <;> rfl

theorem find_previous_results (st : SearchState) :
    (find_previous st).search_results = st.search_results := by
  unfold find_previous
  split <;> rfl

theorem navStep_results (st : SearchState) (op : NavOp) :
    (navStep st op).search_results = st.search_results := by
  cases op
  · exact find_next_results st
  · exact find_previous_results st

theorem find_next_bounds (st : SearchState)
    (h : 0 ≤ st.current_search_index ∧
      st.current_search_index < (st.search_results.length : Int)) :
    0 ≤ (find_next st).current_search_index ∧
      (find_next st).current_search_index < (st.search_results.length : Int) := by
  unfold find_next
  split
  · rename_i hc
    refine ⟨?_, ?_⟩
    · show 0 ≤ st.current_search_index + 1
      omega
    · show st.current_search_index + 1 < (st.search_results.length : Int)
      have := hc.2
      omega
  · exact h

theorem find_previous_bounds (st : SearchState)
    (h : 0 ≤ st.current_search_index ∧
      st.current_search_index < (st.search_results.length : Int)) :
    0 ≤ (find_previous st).current_search_index ∧
      (find_previous st).current_search_index < (st.search_results.length : Int) := by
  unfold find_previous
  split
  · rename_i hc
    refine ⟨?_, ?_⟩
    · show 0 ≤ st.current_search_index - 1
      have := hc.2
      omega
    · show st.current_search_index - 1 < (st.search_results.length : Int)
      omega
  · exact h

theorem navStep_bounds (st : SearchState) (op : NavOp)
    (h : 0 ≤ st.current_search_index ∧
      st.current_search_index < (st.search_results.length : Int)) :
    0 ≤ (navStep st op).current_search_index ∧
      (navStep st op).current_search_index < (st.search_results.length : Int) := by
  cases op
  · exact find_next_bounds st h
  · exact find_previous_bounds st h

theorem navigate_inv (ops : List NavOp) : ∀ st : SearchState,
    (0 ≤ st.current_search_index ∧
      st.current_search_index < (st.search_results.length : Int)) →
    (navigate st ops).search_results = st.search_results ∧
      0 ≤ (navigate st ops).current_search_index ∧
      (navigate st ops).current_search_index < (st.search_results.length : Int) := by
  induction ops with
  | nil =>
    intro st h
    exact ⟨rfl, h⟩
  | cons op rest ih =>
    intro st h
    have hres := navStep_results st op
    have hstep := navStep_bounds st op h
    rw [← hres] at hstep
    obtain ⟨hr, hb1, hb2⟩ := ih (navStep st op) hstep
    rw [hres] at hr hb2
    exact ⟨hr, hb1, hb2⟩

/-- C8: after a search that found `N > 0` matches the cursor index starts
at 0; every sequence of next/previous operations keeps the index within
`[0, N-1]` and the result list unchanged; `find_next` is a no-op at index
`N-1` and otherwise adds one, `find_previous` is a no-op at index 0 and
otherwise subtracts one; and both are no-ops on an empty result set. -/
theorem C8_navigation (st st0 : SearchState) (ops : List NavOp)
    (inputText current_text : List Char) (cs : Bool)
    (hstart : pyStrip inputText ≠ [] ∧
      findOffsets cs (pyStrip inputText) current_text ≠ [])
    (hin : 0 ≤ st.current_search_index ∧
      st.current_search_index < (st.search_results.length : Int)) :
    (start_search st0 inputText cs current_text).current_search_index = 0 ∧
    ((navigate st ops).search_results = st.search_results ∧
      0 ≤ (navigate st ops).current_search_index ∧
      (navigate st ops).current_search_index < (st.search_results.length : Int)) ∧
    (st.current_search_index = (st.search_results.length : Int) - 1 →
      find_next st = st) ∧
    (st.current_search_index < (st.search_results.length : Int) - 1 →
      (find_next st).current_search_index = st.current_search_index + 1) ∧
    (st.current_search_index = 0 → find_previous st = st) ∧
    (0 < st.current_search_index →
      (find_previous st).current_search_index = st.current_search_index - 1) ∧
    (∀ s : SearchState, s.search_results = [] →
      find_next s = s ∧ find_previous s = s) := by
  refine ⟨?_, navigate_inv ops st hin, ?_, ?_, ?_, ?_, ?_⟩
  · simp only [start_search]
    rw [if_neg hstart.1, if_pos hstart.2]
  · intro hlast
    unfold find_next
    rw [if_neg]
    rintro ⟨-, hlt⟩
    omega
  · intro hlt
    have hne : st.search_results ≠ [] := by
      intro hnil
      rw [hnil] at hin
      simp at hin
      omega
    unfold find_next
    rw [if_pos ⟨hne, hlt⟩]
  · intro h0
    unfold find_previous
    rw [if_neg]
    rintro ⟨-, hgt⟩
    omega
  · intro hpos
    have hne : st.search_results ≠ [] := by
      intro hnil
      rw [hnil] at hin
      simp at hin
      omega
    unfold find_previous
    rw [if_pos ⟨hne, hpos⟩]
  · intro s hs
    constructor
    · unfold find_next
      rw [if_neg]
      rintro ⟨hne, -⟩
      exact hne hs
    · unfold find_previous
      rw [if_neg]
      rintro ⟨hne, -⟩
      exact hne hs

/-- C8 witness: a concrete run: input `" ab "` strips to `"ab"`, which
occurs in `"xaby"`, and a two-result state at index 0 navigated by
next, next, prev. -/
theorem C8_witness :
    (pyStrip (" ab ".data) ≠ [] ∧
      findOffsets false (pyStrip (" ab ".data)) ("xaby".data) ≠ []) ∧
    (0 ≤ (SearchState.mk [4, 7] 0).current_search_index ∧
      (SearchState.mk [4, 7] 0).current_search_index <
        ((SearchState.mk [4, 7] 0).search_results.length : Int)) ∧
    ((start_search (SearchState.mk [] (-1)) (" ab ".data) false
        ("xaby".data)).current_search_index = 0 ∧
    ((navigate (SearchState.mk [4, 7] 0)
          [NavOp.next, NavOp.next, NavOp.prev]).search_results =
        (SearchState.mk [4, 7] 0).search_results ∧
      0 ≤ (navigate (SearchState.mk [4, 7] 0)
          [NavOp.next, NavOp.next, NavOp.prev]).current_search_index ∧
      (navigate (SearchState.mk [4, 7] 0)
          [NavOp.next, NavOp.next, NavOp.prev]).current_search_index <
        ((SearchState.mk [4, 7] 0).search_results.length : Int)) ∧
    ((SearchState.mk [4, 7] 0).current_search_index =
        ((SearchState.mk [4, 7] 0).search_results.length : Int) - 1 →
      find_next (SearchState.mk [4, 7] 0) = SearchState.mk [4, 7] 0) ∧
    ((SearchState.mk [4, 7] 0).current_search_index <
        ((SearchState.mk [4, 7] 0).search_results.length : Int) - 1 →
      (find_next (SearchState.mk [4, 7] 0)).current_search_index =
        (SearchState.mk [4, 7] 0).current_search_index + 1) ∧
    ((SearchState.mk [4, 7] 0).current_search_index = 0 →
      find_previous (SearchState.mk [4, 7] 0) = SearchState.mk [4, 7] 0) ∧
    (0 < (SearchState.mk [4, 7] 0).current_search_index →
      (find_previous (SearchState.mk [4, 7] 0)).current_search_index =
        (SearchState.mk [4, 7] 0).current_search_index - 1) ∧
    (∀ s : SearchState, s.search_results = [] →
      find_next s = s ∧ find_previous s = s)) :=
  ⟨⟨by decide, by decide⟩, ⟨by decide, by decide⟩,
    C8_navigation (SearchState.mk [4, 7] 0) (SearchState.mk [] (-1))
      [NavOp.next, NavOp.next, NavOp.prev] (" ab ".data) ("xaby".data) false
      ⟨by decide, by decide⟩ ⟨by decide, by decide⟩⟩

/-- C10: when the search-input text strips to empty, `start_search`
returns immediately and the search state is entirely unchanged — the
stale `search_results` and `current_search_index` of the previous search
are kept, not cleared. -/
theorem C10_empty_keyword (st : SearchState) (inputText current_text : List Char)
    (cs : Bool) (h : pyStrip inputText = []) :
    start_search st inputText cs current_text = st := by
  simp only [start_search, h]
  rfl

/-- C10 witness: a whitespace-only input `"  "` leaves a prior one-result
state untouched. -/
theorem C10_witness :
    pyStrip ("  ".data) = [] ∧
    start_search (SearchState.mk [3] 0) ("  ".data) true ("abc".data) =
      SearchState.mk [3] 0 :=
  ⟨by decide, C10_empty_keyword (SearchState.mk [3] 0) ("  ".data)
    ("abc".data) true (by decide)⟩
